import Mathlib

set_option autoImplicit false

namespace FluentTheming

/-! # Data model

JSON-like values flowing through the theming engine, as a closed tagged type
(scalars, `null`, `undefined`, sequences, first-class functions, and
string-keyed objects kept in JavaScript property order). Function values are
symbolic: `FnVal.prim i` stands for an opaque JavaScript closure identified by
`i`, and `FnVal.comp f g` is the wrapper closure DeepMerger builds when two
functions meet at the same path — `(args) => deepmerge(f(args), g(args))`. -/

inductive FnVal where
  | prim : Nat → FnVal
  | comp : FnVal → FnVal → FnVal
deriving DecidableEq, Repr

mutual

inductive Value where
  | str : String → Value
  | num : Int → Value
  | bool : Bool → Value
  | null : Value
  | undef : Value
  | fn : FnVal → Value
  | arr : Elems → Value
  | obj : Fields → Value
deriving DecidableEq, Repr

inductive Elems where
  | nil : Elems
  | cons : Value → Elems → Elems
deriving DecidableEq, Repr

inductive Fields where
  | nil : Fields
  | cons : String → Value → Fields → Fields
deriving DecidableEq, Repr

end

/-- First-match association lookup (JavaScript property access). -/
def lookupF (k : String) : Fields → Option Value
  | Fields.nil => none
  | Fields.cons k' v rest => if k' = k then some v else lookupF k rest

/-- Whether an object has a property named `k`. -/
def hasKey (k : String) : Fields → Bool
  | Fields.nil => false
  | Fields.cons k' _ rest => k' == k || hasKey k rest

/-- Concatenation of two property lists. -/
def appendF : Fields → Fields → Fields
  | Fields.nil, ys => ys
  | Fields.cons k v xs, ys => Fields.cons k v (appendF xs ys)

/-- Properties of the later layer `ys` whose keys the earlier layer `xs`
lacks, in `ys` order. -/
def onlyNew (xs : Fields) : Fields → Fields
  | Fields.nil => Fields.nil
  | Fields.cons k v ys =>
    if hasKey k xs then onlyNew xs ys else Fields.cons k v (onlyNew xs ys)

mutual

/-- DeepMerger's two-value merge, modelled from the spec (`deepmerge` is
exported by the repository's index but its implementation file is not
present): plain objects merge recursively key by key; when both values are
functions, the later one composes with (wraps) the earlier one unless the
caller passed the `shallow` compose flag requesting plain override; any other
later value — scalars and sequences included — replaces the earlier one
outright. -/
def merge2 (shallow : Bool) : Value → Value → Value
  | Value.obj xs, Value.obj ys => Value.obj (appendF (mergeInto shallow xs ys) (onlyNew xs ys))
  | Value.fn f, Value.fn g => if shallow then Value.fn g else Value.fn (FnVal.comp f g)
  | _, b => b

/-- Merge the later layer `ys` into each property of the earlier layer `xs`,
preserving `xs`'s key order (the `{...target}` spread followed by key-wise
override). -/
def mergeInto (shallow : Bool) : Fields → Fields → Fields
  | Fields.nil, _ => Fields.nil
  | Fields.cons k v xs, ys =>
    Fields.cons k
      (match lookupF k ys with
       | some w => merge2 shallow v w
       | none => v)
      (mergeInto shallow xs ys)

end

/-- Object-level merge of two layers (the object case of `merge2`). -/
def mergeObj (xs ys : Fields) : Fields :=
  appendF (mergeInto false xs ys) (onlyNew xs ys)

/-- A merge argument DeepMerger ignores as a no-op layer: `undefined`, `null`
or the empty string. -/
def isNoOpArg : Value → Bool
  | Value.undef => true
  | Value.null => true
  | Value.str s => s == ""
  | _ => false

/-- One left-fold step of the variadic merge: no-op layers are skipped. -/
def mergeStep (acc v : Value) : Value :=
  if isNoOpArg v then acc else merge2 false acc v

/-- `deepmerge(...sources)`: left-to-right reduction over the argument list
starting from an empty object; earliest argument has lowest precedence. -/
def deepmerge (args : List Value) : Value :=
  args.foldl mergeStep (Value.obj Fields.nil)

/-- Evaluation of symbolic function values: a composed function applies both
sides to the argument and deep-merges the two results left to right. -/
def evalFn (env : Nat → Value → Value) : FnVal → Value → Value
  | FnVal.prim i, x => env i x
  | FnVal.comp f g, x => merge2 false (evalFn env f x) (evalFn env g x)

/-! # ThemeMerger -/

/-- A prepared theme: site variables plus per-component variables and styles
(each field an object keyed by name). `rendererRef` and the remaining fields
do not participate in merging and are omitted. -/
structure Theme where
  siteVariables : Fields
  componentVariables : Fields
  componentStyles : Fields
deriving DecidableEq, Repr

/-- The theme every resolution falls back to when no provider is present. -/
def emptyTheme : Theme :=
  ⟨Fields.nil, Fields.nil, Fields.nil⟩

/-- Merge two themes field-wise with DeepMerger, the later one taking
precedence. Modelled from the spec (§4.4): `mergeThemes` is exported by the
repository's index but its implementation file is not present. -/
def mergeThemes2 (a b : Theme) : Theme :=
  { siteVariables := mergeObj a.siteVariables b.siteVariables
    componentVariables := mergeObj a.componentVariables b.componentVariables
    componentStyles := mergeObj a.componentStyles b.componentStyles }

/-- `mergeThemes(...themes)`: left-to-right fold, earliest theme has lowest
precedence. -/
def mergeThemes (themes : List Theme) : Theme :=
  themes.foldl mergeThemes2 emptyTheme

/-! # Lookup lemmas for the merge -/

/-- A value that is neither an object nor a function: DeepMerger never
recurses into it nor composes it, so a later such value replaces outright. -/
def isLeaf : Value → Bool
  | Value.obj _ => false
  | Value.fn _ => false
  | _ => true

/-- Pointwise (per-key) merge of two optional property values, mirroring what
`mergeObj` does at one key. -/
def mergeOpt (a b : Option Value) : Option Value :=
  match a, b with
  | some v, some w => some (merge2 false v w)
  | some v, none => some v
  | none, b => b

theorem lookupF_appendF (k : String) : ∀ (a b : Fields),
    lookupF k (appendF a b) =
      match lookupF k a with
      | some v => some v
      | none => lookupF k b
  | Fields.nil, b => by simp [appendF, lookupF]
  | Fields.cons k' v rest, b => by
    by_cases h : k' = k <;> simp [appendF, lookupF, h, lookupF_appendF k rest b]

theorem lookupF_mergeInto (sh : Bool) (k : String) : ∀ (xs ys : Fields),
    lookupF k (mergeInto sh xs ys) =
      (lookupF k xs).map (fun v =>
        match lookupF k ys with
        | some w => merge2 sh v w
        | none => v)
  | Fields.nil, ys => by simp [mergeInto, lookupF]
  | Fields.cons k' v rest, ys => by
    by_cases h : k' = k
    · subst h
      simp [mergeInto, lookupF]
    · simp [mergeInto, lookupF, h, lookupF_mergeInto sh k rest ys]

theorem lookupF_eq_none_of_hasKey_false {k : String} : ∀ {xs : Fields},
    hasKey k xs = false → lookupF k xs = none
  | Fields.nil, _ => by simp [lookupF]
  | Fields.cons k' v rest, h => by
    simp [hasKey] at h
    simp [lookupF, h.1, lookupF_eq_none_of_hasKey_false h.2]

theorem lookupF_onlyNew_of_hasKey_false {k : String} (xs : Fields) : ∀ {ys : Fields},
    hasKey k xs = false → lookupF k (onlyNew xs ys) = lookupF k ys
  | Fields.nil, _ => by simp [onlyNew]
  | Fields.cons k' v rest, h => by
    by_cases hk : k' = k
    · subst hk
      simp [onlyNew, h, lookupF, lookupF_onlyNew_of_hasKey_false xs h]
    · by_cases hx : hasKey k' xs <;>
        simp [onlyNew, hx, lookupF, hk, lookupF_onlyNew_of_hasKey_false xs h]

theorem hasKey_false_of_lookupF_none {k : String} : ∀ {xs : Fields},
    lookupF k xs = none → hasKey k xs = false
  | Fields.nil, _ => by simp [hasKey]
  | Fields.cons k' v rest, h => by
    simp [lookupF] at h
    by_cases hk : k' = k
    · simp [hk] at h
    · simp [hasKey, hk, hasKey_false_of_lookupF_none (by simpa [hk] using h)]

/-- The key-by-key description of the object merge: a key found in both
layers holds the recursive merge of the two values, a key found in only one
layer holds that layer's value. -/
theorem lookupF_mergeObj (k : String) (xs ys : Fields) :
    lookupF k (mergeObj xs ys) = mergeOpt (lookupF k xs) (lookupF k ys) := by
  unfold mergeObj
  rw [lookupF_appendF, lookupF_mergeInto]
  cases hx : lookupF k xs with
  | some v =>
    cases hy : lookupF k ys <;> simp [mergeOpt]
  | none =>
    have hk : hasKey k xs = false := hasKey_false_of_lookupF_none hx
    simp [mergeOpt, lookupF_onlyNew_of_hasKey_false xs hk]

theorem merge2_leaf (sh : Bool) (a : Value) {b : Value} (h : isLeaf b = true) :
    merge2 sh a b = b := by
  cases a <;> cases b <;> simp_all [merge2, isLeaf]

theorem onlyNew_nil : ∀ ys : Fields, onlyNew Fields.nil ys = ys
  | Fields.nil => rfl
  | Fields.cons k v rest => by simp [onlyNew, hasKey, onlyNew_nil rest]

theorem mergeObj_nil_left (ys : Fields) : mergeObj Fields.nil ys = ys := by
  simp [mergeObj, mergeInto, appendF, onlyNew_nil]

theorem mergeThemes2_empty_left (t : Theme) : mergeThemes2 emptyTheme t = t := by
  cases t
  simp [mergeThemes2, emptyTheme, mergeObj_nil_left]

theorem mergeOpt_leaf (a : Option Value) {v : Value} (h : isLeaf v = true) :
    mergeOpt a (some v) = some v := by
  cases a with
  | none => rfl
  | some w => simp [mergeOpt, merge2_leaf false w h]

theorem mergeThemes_three (t1 t2 t3 : Theme) :
    mergeThemes [t1, t2, t3] = mergeThemes2 (mergeThemes2 t1 t2) t3 := by
  simp [mergeThemes, mergeThemes2_empty_left]

/-- Claim C1: Merging a stack of three themes obeys the fixed total precedence
order. Key by key, each of the three merged fields (`siteVariables`,
`componentVariables`, `componentStyles`) is exactly the left-to-right
DeepMerger combination of the per-theme values at that key; in particular any
key carrying a leaf value (neither object nor function, so DeepMerger neither
recurses into it nor composes it) in `t3` wins outright over the same key in
`t1` or `t2`. -/
theorem mergeThemes_later_layer_wins (t1 t2 t3 : Theme) (k : String) :
    (lookupF k (mergeThemes [t1, t2, t3]).siteVariables =
       mergeOpt (mergeOpt (lookupF k t1.siteVariables) (lookupF k t2.siteVariables))
         (lookupF k t3.siteVariables)) ∧
    (lookupF k (mergeThemes [t1, t2, t3]).componentVariables =
       mergeOpt (mergeOpt (lookupF k t1.componentVariables) (lookupF k t2.componentVariables))
         (lookupF k t3.componentVariables)) ∧
    (lookupF k (mergeThemes [t1, t2, t3]).componentStyles =
       mergeOpt (mergeOpt (lookupF k t1.componentStyles) (lookupF k t2.componentStyles))
         (lookupF k t3.componentStyles)) ∧
    (∀ v : Value, lookupF k t3.siteVariables = some v → isLeaf v = true →
       lookupF k (mergeThemes [t1, t2, t3]).siteVariables = some v) ∧
    (∀ v : Value, lookupF k t3.componentVariables = some v → isLeaf v = true →
       lookupF k (mergeThemes [t1, t2, t3]).componentVariables = some v) ∧
    (∀ v : Value, lookupF k t3.componentStyles = some v → isLeaf v = true →
       lookupF k (mergeThemes [t1, t2, t3]).componentStyles = some v) := by
  rw [mergeThemes_three]
  simp [mergeThemes2, lookupF_mergeObj]
  refine ⟨fun v h3 hv => ?_, fun v h3 hv => ?_, fun v h3 hv => ?_⟩ <;>
    rw [h3, mergeOpt_leaf _ hv]

/-- Closed instance of `mergeThemes_later_layer_wins`: with `color` set in all
three layers, the third theme's value survives in the merged theme. -/
theorem mergeThemes_later_layer_wins_witness :
    lookupF "color"
      (mergeThemes
        [⟨Fields.cons "color" (Value.str "red") Fields.nil, Fields.nil, Fields.nil⟩,
         ⟨Fields.cons "color" (Value.str "white") Fields.nil, Fields.nil, Fields.nil⟩,
         ⟨Fields.cons "color" (Value.str "blue") Fields.nil, Fields.nil, Fields.nil⟩]).siteVariables =
      some (Value.str "blue") :=
  (mergeThemes_later_layer_wins
    ⟨Fields.cons "color" (Value.str "red") Fields.nil, Fields.nil, Fields.nil⟩
    ⟨Fields.cons "color" (Value.str "white") Fields.nil, Fields.nil, Fields.nil⟩
    ⟨Fields.cons "color" (Value.str "blue") Fields.nil, Fields.nil, Fields.nil⟩
    "color").2.2.2.1 (Value.str "blue") (by decide) (by decide)

/-- Claim C2: When both values at the same path are functions, DeepMerger
composes them — the later function wraps the earlier one, and evaluating the
wrapper chains the two left to right through a recursive merge — instead of
replacing, unless the caller passes the `shallow` compose flag, in which case
the later function overrides. -/
theorem deepmerge_composes_functions (f g : FnVal) (k : String) (xs ys : Fields)
    (hx : lookupF k xs = some (Value.fn f)) (hy : lookupF k ys = some (Value.fn g)) :
    merge2 false (Value.fn f) (Value.fn g) = Value.fn (FnVal.comp f g) ∧
    merge2 true (Value.fn f) (Value.fn g) = Value.fn g ∧
    lookupF k (mergeObj xs ys) = some (Value.fn (FnVal.comp f g)) ∧
    (∀ (env : Nat → Value → Value) (x : Value),
       evalFn env (FnVal.comp f g) x = merge2 false (evalFn env f x) (evalFn env g x)) := by
  refine ⟨rfl, rfl, ?_, fun env x => rfl⟩
  rw [lookupF_mergeObj, hx, hy]
  rfl

/-- Closed instance of `deepmerge_composes_functions` at two one-key objects
holding distinct primitive functions. -/
theorem deepmerge_composes_functions_witness :
    lookupF "variables"
      (mergeObj (Fields.cons "variables" (Value.fn (FnVal.prim 0)) Fields.nil)
        (Fields.cons "variables" (Value.fn (FnVal.prim 1)) Fields.nil)) =
      some (Value.fn (FnVal.comp (FnVal.prim 0) (FnVal.prim 1))) :=
  (deepmerge_composes_functions (FnVal.prim 0) (FnVal.prim 1) "variables"
    (Fields.cons "variables" (Value.fn (FnVal.prim 0)) Fields.nil)
    (Fields.cons "variables" (Value.fn (FnVal.prim 1)) Fields.nil)
    (by decide) (by decide)).2.2.1

/-- Claim C7: The variadic `deepmerge` treats every `undefined`, `null` or
empty-string argument as a no-op layer: the result equals the merge of the
argument list with those arguments removed. -/
theorem deepmerge_ignores_noop_args (args : List Value) :
    deepmerge args = deepmerge (args.filter (fun v => !isNoOpArg v)) := by
  unfold deepmerge
  generalize Value.obj Fields.nil = acc
  induction args generalizing acc with
  | nil => rfl
  | cons v rest ih =>
    by_cases hv : isNoOpArg v <;>
      simp [List.filter_cons, hv, mergeStep, List.foldl_cons, ih]

/-! # Idempotence of mergeThemes (C6) -/

/-- Keys of an object are pairwise distinct. -/
def nodupKeysF : Fields → Bool
  | Fields.nil => true
  | Fields.cons k _ xs => !hasKey k xs && nodupKeysF xs

mutual

/-- No function value occurs anywhere inside. -/
def fnFreeV : Value → Bool
  | Value.fn _ => false
  | Value.obj xs => fnFreeF xs
  | Value.arr es => fnFreeE es
  | _ => true

def fnFreeE : Elems → Bool
  | Elems.nil => true
  | Elems.cons v es => fnFreeV v && fnFreeE es

def fnFreeF : Fields → Bool
  | Fields.nil => true
  | Fields.cons _ v xs => fnFreeV v && fnFreeF xs

end

mutual

/-- Every object nested inside has pairwise-distinct keys. -/
def wfKeysV : Value → Bool
  | Value.obj xs => nodupKeysF xs && wfKeysF xs
  | Value.arr es => wfKeysE es
  | _ => true

def wfKeysE : Elems → Bool
  | Elems.nil => true
  | Elems.cons v es => wfKeysV v && wfKeysE es

def wfKeysF : Fields → Bool
  | Fields.nil => true
  | Fields.cons _ v xs => wfKeysV v && wfKeysF xs

end

theorem appendF_nil : ∀ xs : Fields, appendF xs Fields.nil = xs
  | Fields.nil => rfl
  | Fields.cons k v rest => by simp [appendF, appendF_nil rest]

theorem onlyNew_eq_nil (xs : Fields) : ∀ ys : Fields,
    (∀ k, hasKey k ys = true → hasKey k xs = true) → onlyNew xs ys = Fields.nil
  | Fields.nil, _ => rfl
  | Fields.cons k v ys, h => by
    have hk : hasKey k xs = true := h k (by simp [hasKey])
    simp [onlyNew, hk]
    exact onlyNew_eq_nil xs ys (fun k' h' => h k' (by simp [hasKey, h']))

mutual

/-- Merging a function-free, duplicate-key-free value with itself returns it
unchanged. -/
theorem merge2_self : ∀ v : Value, wfKeysV v = true → fnFreeV v = true →
    merge2 false v v = v
  | Value.str _, _, _ => rfl
  | Value.num _, _, _ => rfl
  | Value.bool _, _, _ => rfl
  | Value.null, _, _ => rfl
  | Value.undef, _, _ => rfl
  | Value.arr _, _, _ => rfl
  | Value.fn _, _, hf => by simp [fnFreeV] at hf
  | Value.obj xs, hw, hf => by
    simp [wfKeysV] at hw
    simp [fnFreeV] at hf
    have h1 : mergeInto false xs xs = xs :=
      mergeInto_self_sub xs xs hw.1 hw.2 hf (fun k _ => rfl)
    have h2 : onlyNew xs xs = Fields.nil := onlyNew_eq_nil xs xs (fun _ h => h)
    simp [merge2, h1, h2, appendF_nil]

/-- Key-wise self-merge of an object layer: when `ys` agrees with `xs` on all
of `xs`'s keys, merging `ys` into `xs` leaves `xs` unchanged. -/
theorem mergeInto_self_sub : ∀ xs ys : Fields,
    nodupKeysF xs = true → wfKeysF xs = true → fnFreeF xs = true →
    (∀ k, hasKey k xs = true → lookupF k ys = lookupF k xs) →
    mergeInto false xs ys = xs
  | Fields.nil, _, _, _, _, _ => rfl
  | Fields.cons k v xs, ys, hnd, hw, hf, hsub => by
    simp [nodupKeysF] at hnd
    simp [wfKeysF] at hw
    simp [fnFreeF] at hf
    have hself : lookupF k ys = some v := by
      rw [hsub k (by simp [hasKey]), lookupF]
      simp
    have htail : ∀ k', hasKey k' xs = true → lookupF k' ys = lookupF k' xs := by
      intro k' hk'
      have hne : k ≠ k' := by
        intro he
        rw [he] at hnd
        exact absurd hk' (by simp [hnd.1])
      rw [hsub k' (by simp [hasKey, hk']), lookupF, if_neg hne]
    simp [mergeInto, hself, merge2_self v hw.1 hf.1,
      mergeInto_self_sub xs ys hnd.2 hw.2 hf.2 htail]

end

/-- Both halves of theme well-formedness used for the amended idempotence
statement: duplicate-free keys everywhere. -/
def themeWFKeys (t : Theme) : Bool :=
  wfKeysV (Value.obj t.siteVariables) && wfKeysV (Value.obj t.componentVariables) &&
    wfKeysV (Value.obj t.componentStyles)

/-- The theme carries no function-typed values. -/
def themeFnFree (t : Theme) : Bool :=
  fnFreeF t.siteVariables && fnFreeF t.componentVariables && fnFreeF t.componentStyles

theorem mergeObj_self {xs : Fields} (hnd : nodupKeysF xs = true)
    (hw : wfKeysF xs = true) (hf : fnFreeF xs = true) : mergeObj xs xs = xs := by
  have h := merge2_self (Value.obj xs) (by simp [wfKeysV, hnd, hw]) (by simp [fnFreeV, hf])
  simpa [merge2, mergeObj] using h

/-- Claim C6, counterexample: `mergeThemes(t, t)` is not structurally equal to
`t` when `t` carries a function-valued entry: DeepMerger rewraps the function
in a composition with itself, producing a new (structurally different)
function value. -/
theorem mergeThemes_idempotent_counterexample :
    mergeThemes
        [⟨Fields.nil, Fields.cons "Button" (Value.fn (FnVal.prim 0)) Fields.nil, Fields.nil⟩,
         ⟨Fields.nil, Fields.cons "Button" (Value.fn (FnVal.prim 0)) Fields.nil, Fields.nil⟩] ≠
      ⟨Fields.nil, Fields.cons "Button" (Value.fn (FnVal.prim 0)) Fields.nil, Fields.nil⟩ := by
  decide

/-- Claim C6, amended: For every theme whose fields have duplicate-free keys at
every nesting level and carry no function-typed values, merging the theme with
itself yields a theme structurally equal to the original. (For function-valued
entries DeepMerger composes the function with itself instead, so structural
idempotence fails there — see the counterexample.) -/
theorem mergeThemes_self_idempotent (t : Theme) (hw : themeWFKeys t = true)
    (hf : themeFnFree t = true) : mergeThemes [t, t] = t := by
  simp [themeWFKeys, wfKeysV] at hw
  simp [themeFnFree] at hf
  have h2 : mergeThemes [t, t] = mergeThemes2 t t := by
    simp [mergeThemes, mergeThemes2_empty_left]
  cases t with
  | mk sv cv cs =>
    simp only [h2, mergeThemes2]
    simp only at hw hf
    rw [mergeObj_self hw.1.1.1 hw.1.1.2 hf.1.1, mergeObj_self hw.1.2.1 hw.1.2.2 hf.1.2,
      mergeObj_self hw.2.1 hw.2.2 hf.2]

/-- Closed instance of `mergeThemes_self_idempotent` on a function-free theme
with nested site variables. -/
theorem mergeThemes_self_idempotent_witness :
    mergeThemes
        [⟨Fields.cons "colors" (Value.obj (Fields.cons "brand" (Value.str "blue") Fields.nil))
            (Fields.cons "pad" (Value.num 4) Fields.nil),
          Fields.cons "Button" (Value.obj (Fields.cons "fontSize" (Value.num 12) Fields.nil))
            Fields.nil,
          Fields.nil⟩,
         ⟨Fields.cons "colors" (Value.obj (Fields.cons "brand" (Value.str "blue") Fields.nil))
            (Fields.cons "pad" (Value.num 4) Fields.nil),
          Fields.cons "Button" (Value.obj (Fields.cons "fontSize" (Value.num 12) Fields.nil))
            Fields.nil,
          Fields.nil⟩] =
      ⟨Fields.cons "colors" (Value.obj (Fields.cons "brand" (Value.str "blue") Fields.nil))
          (Fields.cons "pad" (Value.num 4) Fields.nil),
        Fields.cons "Button" (Value.obj (Fields.cons "fontSize" (Value.num 12) Fields.nil))
          Fields.nil,
        Fields.nil⟩ :=
  mergeThemes_self_idempotent _ (by decide) (by decide)

/-! # iconBehavior (src/unnamed/part_002) -/

/-- Props read by `iconBehavior`: `alt` and `aria-label`, both optional
strings. -/
structure IconBehaviorProps where
  alt : Option String
  ariaLabel : Option String

/-- JavaScript truthiness of an optional string prop (`undefined` and the
empty string are falsy). -/
def truthyStr : Option String → Bool
  | none => false
  | some s => !(s == "")

/-- The root slot attributes `iconBehavior` produces. -/
structure IconRootAttributes where
  role : String
  ariaHidden : Option String
deriving DecidableEq, Repr

/-- `iconBehavior` from `src/unnamed/part_002`: adds `role='img'` and hides
the icon from screen readers (`aria-hidden='true'`) exactly when neither
`alt` nor `aria-label` is truthy. -/
def iconBehavior (props : IconBehaviorProps) : IconRootAttributes :=
  { role := "img"
    ariaHidden :=
      if truthyStr props.alt || truthyStr props.ariaLabel then none else some "true" }

/-- Claim C10: For every props object, `iconBehavior` sets the root role to
`img`, sets `aria-hidden` to `'true'` exactly when both `alt` and
`aria-label` are falsy, and leaves `aria-hidden` undefined exactly when
either of them is truthy. -/
theorem iconBehavior_aria_hidden (props : IconBehaviorProps) :
    (iconBehavior props).role = "img" ∧
    ((iconBehavior props).ariaHidden = some "true" ↔
      truthyStr props.alt = false ∧ truthyStr props.ariaLabel = false) ∧
    ((iconBehavior props).ariaHidden = none ↔
      (truthyStr props.alt = true ∨ truthyStr props.ariaLabel = true)) := by
  by_cases ha : truthyStr props.alt <;> by_cases hl : truthyStr props.ariaLabel <;>
    simp [iconBehavior, ha, hl]

/-! # TokenResolver

Modelled from the spec (§4.2): the dependent-token resolver described by the
documentation in `src/unnamed/part_000` has no implementation file under the
sources. Token function bodies are embedded as a small expression type
(`TExpr`) so that resolution is executable; `readVar` reads the incoming
site/component variables the functions close over, `readDep i` reads the
`i`-th declared dependency value. -/

deriving instance DecidableEq for Except

/-- Generic first-match association lookup. -/
def lookupL {κ α : Type} [DecidableEq κ] (k : κ) : List (κ × α) → Option α
  | [] => none
  | (k', v) :: rest => if k' = k then some v else lookupL k rest

inductive TokenError where
  | cyclicTokenDependency : TokenError
  | unknownTokenDependency : TokenError
deriving DecidableEq, Repr

/-- Body of a functional or dependent token. -/
inductive TExpr where
  | lit : Value → TExpr
  | readVar : String → TExpr
  | readDep : Nat → TExpr
deriving DecidableEq, Repr

/-- A token specification: literal value, function of the variables, or value
computed from other tokens declared in `dependsOn` order. -/
inductive TokenSpec where
  | literal : Value → TokenSpec
  | functional : TExpr → TokenSpec
  | dependent : List String → TExpr → TokenSpec
deriving DecidableEq, Repr

/-- Evaluate a token function body against the ambient variables and the
ordered list of resolved dependency values. -/
def evalT (vars : List (String × Value)) (deps : List Value) : TExpr → Value
  | TExpr.lit v => v
  | TExpr.readVar k => (lookupL k vars).getD Value.undef
  | TExpr.readDep i => (deps.getD i Value.undef)

/-- Resolve each declared dependency in order with the resolver `r`,
failing on the first error. -/
def resolveDepsWith (r : List String → String → Except TokenError Value)
    (visiting : List String) : List String → Except TokenError (List Value)
  | [] => Except.ok []
  | d :: ds =>
    match r visiting d with
    | Except.error e => Except.error e
    | Except.ok v =>
      match resolveDepsWith r visiting ds with
      | Except.error e => Except.error e
      | Except.ok vs => Except.ok (v :: vs)

/-- Core resolution of one token. `visiting` is the chain of tokens currently
being resolved: revisiting one of them is a cyclic dependency and fails; a
dependency name absent from the spec map fails as unknown. `fuel` bounds the
recursion depth; one unit is consumed per dependent hop, so
`specs.length + 1` units (as supplied by `TokenResolver.resolve`) are enough
for every non-cyclic chain. -/
def resolveToken (specs : List (String × TokenSpec)) (vars : List (String × Value)) :
    Nat → List String → String → Except TokenError Value
  | 0, _, _ => Except.error TokenError.cyclicTokenDependency
  | Nat.succ fuel, visiting, name =>
    if name ∈ visiting then Except.error TokenError.cyclicTokenDependency
    else
      match lookupL name specs with
      | none => Except.error TokenError.unknownTokenDependency
      | some (TokenSpec.literal v) => Except.ok v
      | some (TokenSpec.functional e) => Except.ok (evalT vars [] e)
      | some (TokenSpec.dependent deps e) =>
        match resolveDepsWith (resolveToken specs vars fuel) (name :: visiting) deps with
        | Except.error err => Except.error err
        | Except.ok vals => Except.ok (evalT vars vals e)

namespace TokenResolver

/-- `TokenResolver.resolve(tokenSpecs, variables)` applied to one token
name. -/
def resolve (specs : List (String × TokenSpec)) (vars : List (String × Value))
    (name : String) : Except TokenError Value :=
  resolveToken specs vars (specs.length + 1) [] name

end TokenResolver

/-- Resolve every token of the spec map in declaration order, failing as a
whole on the first error (an erroring resolution stores nothing). -/
def resolveAllAux (specs : List (String × TokenSpec)) (vars : List (String × Value)) :
    List (String × TokenSpec) → Except TokenError (List (String × Value))
  | [] => Except.ok []
  | (k, _) :: rest =>
    match TokenResolver.resolve specs vars k with
    | Except.error e => Except.error e
    | Except.ok v =>
      match resolveAllAux specs vars rest with
      | Except.error e => Except.error e
      | Except.ok m => Except.ok ((k, v) :: m)

namespace TokenResolver

/-- `TokenResolver.resolve(tokenSpecs, variables)` over the whole map. -/
def resolveAll (specs : List (String × TokenSpec)) (vars : List (String × Value)) :
    Except TokenError (List (String × Value)) :=
  resolveAllAux specs vars specs

end TokenResolver

/-! # Association-list lemmas for the resolver -/

theorem lookupL_mem {κ α : Type} [DecidableEq κ] {k : κ} {v : α} : ∀ {l : List (κ × α)},
    lookupL k l = some v → (k, v) ∈ l
  | [], h => by simp [lookupL] at h
  | (k', v') :: rest, h => by
    by_cases hk : k' = k
    · subst hk
      simp [lookupL] at h
      simp [h]
    · simp [lookupL, hk] at h
      exact List.mem_cons_of_mem _ (lookupL_mem h)

theorem lookupL_eq_none {κ α : Type} [DecidableEq κ] {k : κ} : ∀ {l : List (κ × α)},
    lookupL k l = none ↔ k ∉ l.map Prod.fst
  | [] => by simp [lookupL]
  | (k', v') :: rest => by
    by_cases hk : k' = k
    · subst hk
      simp [lookupL]
    · simp [lookupL, hk, lookupL_eq_none (l := rest), Ne.symm hk]

theorem mem_lookupL {κ α : Type} [DecidableEq κ] {k : κ} {v : α} : ∀ {l : List (κ × α)},
    (l.map Prod.fst).Nodup → (k, v) ∈ l → lookupL k l = some v
  | [], _, h => by simp at h
  | (k', v') :: rest, hnd, h => by
    simp at hnd
    rcases List.mem_cons.mp h with heq | hmem
    · injection heq with h1 h2
      subst h1
      subst h2
      simp [lookupL]
    · have hk : k' ≠ k := by
        intro he
        subst he
        exact hnd.1 v hmem
      simp [lookupL, hk, mem_lookupL hnd.2 hmem]

theorem lookupL_perm {κ α : Type} [DecidableEq κ] {l1 l2 : List (κ × α)} (hp : l1.Perm l2)
    (hnd : (l1.map Prod.fst).Nodup) (k : κ) : lookupL k l1 = lookupL k l2 := by
  have hnd2 : (l2.map Prod.fst).Nodup := ((hp.map Prod.fst).nodup_iff).mp hnd
  cases h1 : lookupL k l1 with
  | some v => exact (mem_lookupL hnd2 (hp.subset (lookupL_mem h1))).symm
  | none =>
    have hno : k ∉ l2.map Prod.fst := by
      intro hmem
      exact lookupL_eq_none.mp h1 ((hp.map Prod.fst).mem_iff.mpr hmem)
    exact (lookupL_eq_none.mpr hno).symm

theorem two_lookups_length {α : Type} {a b : String} {va vb : α} :
    ∀ {l : List (String × α)}, a ≠ b → lookupL a l = some va → lookupL b l = some vb →
      2 ≤ l.length
  | [], _, ha, _ => by simp [lookupL] at ha
  | [(k, v)], hab, ha, hb => by
    by_cases h1 : k = a
    · by_cases h2 : k = b
      · exact absurd (h1.symm.trans h2) hab
      · simp [lookupL, h2] at hb
    · simp [lookupL, h1] at ha
  | x :: y :: rest, _, _, _ => by
    simp [List.length]

/-! # C4: cyclic dependencies fail -/

theorem resolveToken_succ (specs : List (String × TokenSpec)) (vars : List (String × Value))
    (fuel : Nat) (visiting : List String) (name : String) :
    resolveToken specs vars (Nat.succ fuel) visiting name =
      if name ∈ visiting then Except.error TokenError.cyclicTokenDependency
      else
        match lookupL name specs with
        | none => Except.error TokenError.unknownTokenDependency
        | some (TokenSpec.literal v) => Except.ok v
        | some (TokenSpec.functional e) => Except.ok (evalT vars [] e)
        | some (TokenSpec.dependent deps e) =>
          match resolveDepsWith (resolveToken specs vars fuel) (name :: visiting) deps with
          | Except.error err => Except.error err
          | Except.ok vals => Except.ok (evalT vars vals e) := rfl

theorem resolveToken_cycle (specs : List (String × TokenSpec)) (vars : List (String × Value))
    {a b : String} {fa fb : TExpr} (hab : a ≠ b)
    (ha : lookupL a specs = some (TokenSpec.dependent [b] fa))
    (hb : lookupL b specs = some (TokenSpec.dependent [a] fb)) (f : Nat) :
    resolveToken specs vars (Nat.succ (Nat.succ (Nat.succ f))) [] a =
      Except.error TokenError.cyclicTokenDependency := by
  have h3 : resolveToken specs vars (Nat.succ f) [b, a] a =
      Except.error TokenError.cyclicTokenDependency := by
    rw [resolveToken_succ]
    simp
  have h2 : resolveToken specs vars (Nat.succ (Nat.succ f)) [a] b =
      Except.error TokenError.cyclicTokenDependency := by
    rw [resolveToken_succ, if_neg (by simp [Ne.symm hab]), hb]
    simp [resolveDepsWith, h3]
  rw [resolveToken_succ, if_neg (by simp), ha]
  simp [resolveDepsWith, h2]

theorem resolveAllAux_error_of_mem {specs : List (String × TokenSpec)}
    {vars : List (String × Value)} {k : String} {s : TokenSpec} {e : TokenError}
    (hres : TokenResolver.resolve specs vars k = Except.error e) :
    ∀ (todo : List (String × TokenSpec)), (k, s) ∈ todo →
      ∀ m, resolveAllAux specs vars todo ≠ Except.ok m
  | [], h, m => by simp at h
  | (k', s') :: rest, h, m => by
    rcases List.mem_cons.mp h with heq | hmem
    · have hk : k' = k := (Prod.ext_iff.mp heq).1.symm
      subst hk
      simp [resolveAllAux, hres]
    · cases hr : TokenResolver.resolve specs vars k' with
      | error e' => simp [resolveAllAux, hr]
      | ok v =>
        cases hrest : resolveAllAux specs vars rest with
        | error e' => simp [resolveAllAux, hr, hrest]
        | ok m' => exact absurd hrest (resolveAllAux_error_of_mem hres rest hmem m')

/-- Claim C4: A cyclic token dependency (`a dependsOn b`, `b dependsOn a`) makes
`TokenResolver.resolve` fail with `CyclicTokenDependency`: the error is the
resolver's return value (surfaced to the caller, never swallowed), and the
whole-map resolution never produces a resolved-variables map for that pass,
so no stale entry can be stored. -/
theorem tokenResolver_cycle_fails (specs : List (String × TokenSpec))
    (vars : List (String × Value)) (a b : String) (fa fb : TExpr) (hab : a ≠ b)
    (ha : lookupL a specs = some (TokenSpec.dependent [b] fa))
    (hb : lookupL b specs = some (TokenSpec.dependent [a] fb)) :
    TokenResolver.resolve specs vars a = Except.error TokenError.cyclicTokenDependency ∧
    ∀ m, TokenResolver.resolveAll specs vars ≠ Except.ok m := by
  have hlen : 2 ≤ specs.length := two_lookups_length hab ha hb
  obtain ⟨f, hf⟩ : ∃ f, specs.length + 1 = Nat.succ (Nat.succ (Nat.succ f)) :=
    ⟨specs.length - 2, by omega⟩
  have hres : TokenResolver.resolve specs vars a =
      Except.error TokenError.cyclicTokenDependency := by
    unfold TokenResolver.resolve
    rw [hf]
    exact resolveToken_cycle specs vars hab ha hb f
  exact ⟨hres, fun m => resolveAllAux_error_of_mem hres specs (lookupL_mem ha) m⟩

/-- Closed instance of `tokenResolver_cycle_fails` on the two-token cycle
`A dependsOn B`, `B dependsOn A`. -/
theorem tokenResolver_cycle_fails_witness :
    TokenResolver.resolve
        [("A", TokenSpec.dependent ["B"] (TExpr.readDep 0)),
         ("B", TokenSpec.dependent ["A"] (TExpr.readDep 0))] [] "A" =
      Except.error TokenError.cyclicTokenDependency :=
  (tokenResolver_cycle_fails
    [("A", TokenSpec.dependent ["B"] (TExpr.readDep 0)),
     ("B", TokenSpec.dependent ["A"] (TExpr.readDep 0))] []
    "A" "B" (TExpr.readDep 0) (TExpr.readDep 0)
    (by decide) (by decide) (by decide)).1

/-! # C5: declaration order does not matter -/

theorem resolveDepsWith_congr {r1 r2 : List String → String → Except TokenError Value}
    (h : ∀ vis d, r1 vis d = r2 vis d) (vis : List String) :
    ∀ ds, resolveDepsWith r1 vis ds = resolveDepsWith r2 vis ds
  | [] => rfl
  | d :: ds => by
    simp only [resolveDepsWith, h vis d, resolveDepsWith_congr h vis ds]

theorem resolveToken_congr {specs1 specs2 : List (String × TokenSpec)}
    (vars : List (String × Value)) (hlk : ∀ k, lookupL k specs1 = lookupL k specs2) :
    ∀ (fuel : Nat) (visiting : List String) (name : String),
      resolveToken specs1 vars fuel visiting name = resolveToken specs2 vars fuel visiting name
  | 0, _, _ => rfl
  | Nat.succ fuel, visiting, name => by
    have ih : ∀ vis d, resolveToken specs1 vars fuel vis d = resolveToken specs2 vars fuel vis d :=
      fun vis d => resolveToken_congr vars hlk fuel vis d
    rw [resolveToken_succ, resolveToken_succ, hlk name]
    by_cases hv : name ∈ visiting
    · simp [hv]
    · rw [if_neg hv, if_neg hv]
      cases lookupL name specs2 with
      | none => rfl
      | some s =>
        cases s with
        | literal v => rfl
        | functional e => rfl
        | dependent deps e =>
          simp [resolveDepsWith_congr ih (name :: visiting) deps]

/-- Claim C5: For token-spec maps with duplicate-free names, resolution is
invariant under any reordering of the map's entries: the value
`TokenResolver.resolve` produces for each token name depends only on the
declared `dependsOn` lists (looked up by name), never on declaration order. -/
theorem tokenResolver_order_independent (specs1 specs2 : List (String × TokenSpec))
    (vars : List (String × Value)) (name : String) (hp : specs1.Perm specs2)
    (hnd : (specs1.map Prod.fst).Nodup) :
    TokenResolver.resolve specs1 vars name = TokenResolver.resolve specs2 vars name := by
  unfold TokenResolver.resolve
  rw [hp.length_eq]
  exact resolveToken_congr vars (fun k => lookupL_perm hp hnd k) (specs2.length + 1) [] name

/-- Closed instance of `tokenResolver_order_independent`: the §8 scenario —
`backgroundHoverColor` depends on `backgroundColor`, and listing the dependent
token first or last resolves to the same value. -/
theorem tokenResolver_order_independent_witness :
    TokenResolver.resolve
        [("backgroundColor", TokenSpec.literal (Value.str "#000000")),
         ("backgroundHoverColor", TokenSpec.dependent ["backgroundColor"] (TExpr.readDep 0))]
        [] "backgroundHoverColor" =
      TokenResolver.resolve
        [("backgroundHoverColor", TokenSpec.dependent ["backgroundColor"] (TExpr.readDep 0)),
         ("backgroundColor", TokenSpec.literal (Value.str "#000000"))]
        [] "backgroundHoverColor" :=
  tokenResolver_order_independent
    [("backgroundColor", TokenSpec.literal (Value.str "#000000")),
     ("backgroundHoverColor", TokenSpec.dependent ["backgroundColor"] (TExpr.readDep 0))]
    [("backgroundHoverColor", TokenSpec.dependent ["backgroundColor"] (TExpr.readDep 0)),
     ("backgroundColor", TokenSpec.literal (Value.str "#000000"))]
    [] "backgroundHoverColor" (by decide) (by decide)

/-! # VariantResolver

Modelled from the spec (§4.3) and the `compose` variants tests in
`src/unnamed/part_000`: the `_composeFactory` implementation is imported by
the test but its source file is not present. -/

/-- An active variant prop value: boolean props select the `"true"`/`"false"`
key, multi-value props use the string value as key. -/
inductive PropVal where
  | boolVal : Bool → PropVal
  | strVal : String → PropVal
deriving DecidableEq, Repr

/-- The tokens/styles contribution attached to one variant key/value pair.
The function bodies are the same symbolic token expressions used by
TokenResolver. -/
structure VariantContribution where
  tokens : Option TExpr
  styles : Option TExpr
deriving DecidableEq, Repr

/-- Contribution-map key for an active prop value. -/
def propKey : PropVal → String
  | PropVal.boolVal b => if b then "true" else "false"
  | PropVal.strVal s => s

/-- `VariantResolver.resolve(variantDefs, activeProps)`: walk the variants in
declaration order; for each, read the active prop value and look up the
matching contribution; a missing prop or unmatched value contributes
nothing. -/
def resolveVariants (variantDefs : List (String × List (String × VariantContribution)))
    (activeProps : List (String × PropVal)) : List VariantContribution :=
  variantDefs.filterMap (fun vd =>
    match lookupL vd.1 activeProps with
    | none => none
    | some pv => lookupL (propKey pv) vd.2)

/-- The token functions that get invoked during a variant resolution: exactly
the `tokens` members of the collected contributions. -/
def invokedTokenFns (variantDefs : List (String × List (String × VariantContribution)))
    (activeProps : List (String × PropVal)) : List TExpr :=
  (resolveVariants variantDefs activeProps).filterMap (fun c => c.tokens)

/-- Claim C8: A variant whose active prop value matches no contribution
(including a boolean prop that is `false` or absent) contributes nothing and
invokes no token function, without error; with the prop `true` the `"true"`
contribution is collected and its token function invoked. In general every
collected contribution is justified by a declared variant whose active prop
value matches it. -/
theorem variantResolver_unmatched (vname : String) (c : VariantContribution) :
    (resolveVariants [(vname, [("true", c)])] [(vname, PropVal.boolVal false)] = [] ∧
     invokedTokenFns [(vname, [("true", c)])] [(vname, PropVal.boolVal false)] = []) ∧
    (resolveVariants [(vname, [("true", c)])] [] = [] ∧
     invokedTokenFns [(vname, [("true", c)])] [] = []) ∧
    (resolveVariants [(vname, [("true", c)])] [(vname, PropVal.boolVal true)] = [c] ∧
     invokedTokenFns [(vname, [("true", c)])] [(vname, PropVal.boolVal true)] = c.tokens.toList) ∧
    (∀ (defs : List (String × List (String × VariantContribution)))
       (props : List (String × PropVal)) (c' : VariantContribution),
       c' ∈ resolveVariants defs props →
       ∃ vname' contribs pv, (vname', contribs) ∈ defs ∧
         lookupL vname' props = some pv ∧ lookupL (propKey pv) contribs = some c') := by
  refine ⟨?_, ?_, ?_, ?_⟩
  · constructor <;> simp [resolveVariants, invokedTokenFns, lookupL, propKey]
  · constructor <;> simp [resolveVariants, invokedTokenFns, lookupL]
  · constructor <;> cases hc : c.tokens <;>
      simp [resolveVariants, invokedTokenFns, lookupL, propKey, hc]
  · intro defs props c' hc'
    obtain ⟨vd, hvd, hf⟩ := List.mem_filterMap.mp hc'
    cases hpv : lookupL vd.1 props with
    | none => rw [hpv] at hf; exact absurd hf (by simp)
    | some pv =>
      rw [hpv] at hf
      exact ⟨vd.1, vd.2, pv, by simpa using hvd, hpv, hf⟩

/-- Closed instance of `variantResolver_unmatched`, mirroring the repository's
compose test: variant `test` with a token function, rendered with
`{ test: false }` — nothing is contributed and the token function is not
invoked. -/
theorem variantResolver_unmatched_witness :
    resolveVariants [("test", [("true", ⟨some (TExpr.lit Value.null), none⟩)])]
        [("test", PropVal.boolVal false)] = [] ∧
    invokedTokenFns [("test", [("true", ⟨some (TExpr.lit Value.null), none⟩)])]
        [("test", PropVal.boolVal false)] = [] :=
  (variantResolver_unmatched "test" ⟨some (TExpr.lit Value.null), none⟩).1

/-! # ResolutionCache

Modelled from the spec (§4.5, §9): the per-instance style cache has no
implementation file under the sources. Reference identity of the tracked
inputs is modelled by generation ids, as §9's design note prescribes. -/

/-- The identity tuple of a cache entry's tracked inputs: the component
definition, the theme, the variant-affecting active props, and the inline
overrides, each by reference identity. -/
structure InputIdentities where
  componentDefId : Nat
  themeId : Nat
  activePropsId : Nat
  inlineOverridesId : Nat
deriving DecidableEq, Repr

/-- A stored resolution: the identity tuple it was computed from plus the
computed payload (classes, resolved variables, resolved styles). -/
structure CacheEntry (α : Type) where
  inputIdentities : InputIdentities
  value : α
deriving DecidableEq, Repr

/-- Drop the entry stored under `k` (eviction). -/
def removeKey {κ α : Type} [DecidableEq κ] (k : κ) : List (κ × α) → List (κ × α)
  | [] => []
  | (k', v) :: rest =>
    if k' = k then removeKey k rest else (k', v) :: removeKey k rest

/-- `ResolutionCache.resolve(instanceKey, inputs)`: if the entry stored under
`instanceKey` carries the same identity tuple, return it unchanged (no
recomputation — third component `false`, cache untouched); otherwise compute
a fresh entry, store it under `instanceKey` evicting the previous entry, and
report recomputation. -/
def cacheResolve {α : Type} (compute : InputIdentities → α)
    (cache : List (Nat × CacheEntry α)) (instanceKey : Nat) (inputs : InputIdentities) :
    CacheEntry α × List (Nat × CacheEntry α) × Bool :=
  match lookupL instanceKey cache with
  | some e =>
    if e.inputIdentities = inputs then (e, cache, false)
    else
      ((⟨inputs, compute inputs⟩ : CacheEntry α),
        (instanceKey, (⟨inputs, compute inputs⟩ : CacheEntry α)) :: removeKey instanceKey cache,
        true)
  | none =>
    ((⟨inputs, compute inputs⟩ : CacheEntry α),
      (instanceKey, (⟨inputs, compute inputs⟩ : CacheEntry α)) :: removeKey instanceKey cache,
      true)

/-- Claim C3: After a resolution stores an entry, resolving again with the same
identity tuple returns that very entry with the cache untouched and no
recomputation; changing the identity tuple in any way invalidates the whole
entry and yields a freshly computed entry (value recomputed from the new
inputs, previous entry evicted). -/
theorem resolutionCache_identity {α : Type} (compute : InputIdentities → α)
    (cache : List (Nat × CacheEntry α)) (key : Nat) (inputs : InputIdentities)
    (e : CacheEntry α) (cache1 : List (Nat × CacheEntry α)) (flag : Bool)
    (h1 : cacheResolve compute cache key inputs = (e, cache1, flag)) :
    cacheResolve compute cache1 key inputs = (e, cache1, false) ∧
    e.inputIdentities = inputs ∧
    (∀ inputs' : InputIdentities, inputs' ≠ inputs →
       cacheResolve compute cache1 key inputs' =
         ((⟨inputs', compute inputs'⟩ : CacheEntry α),
           (key, (⟨inputs', compute inputs'⟩ : CacheEntry α)) :: removeKey key cache1,
           true)) := by
  have hstored : lookupL key cache1 = some e ∧ e.inputIdentities = inputs := by
    unfold cacheResolve at h1
    split at h1
    next e0 heq =>
      split at h1
      next hid =>
        injection h1 with he hrest
        injection hrest with hc hf
        subst he
        subst hc
        exact ⟨heq, hid⟩
      next hid =>
        injection h1 with he hrest
        injection hrest with hc hf
        subst he
        subst hc
        exact ⟨by simp [lookupL], rfl⟩
    next heq =>
      injection h1 with he hrest
      injection hrest with hc hf
      subst he
      subst hc
      exact ⟨by simp [lookupL], rfl⟩
  obtain ⟨hlk, hid⟩ := hstored
  refine ⟨?_, hid, ?_⟩
  · simp [cacheResolve, hlk, hid]
  · intro inputs' hne
    have hne' : ¬e.inputIdentities = inputs' := by
      rw [hid]
      exact fun h => hne h.symm
    simp [cacheResolve, hlk, hne']

/-- Closed instance of `resolutionCache_identity`: a repeated resolution hits
the stored entry without recomputation, and changing the theme identity alone
recomputes the entry from the new inputs. -/
theorem resolutionCache_identity_witness :
    cacheResolve (fun i : InputIdentities => i.themeId)
        [(0, ⟨⟨1, 2, 3, 4⟩, 2⟩)] 0 ⟨1, 2, 3, 4⟩ =
      (⟨⟨1, 2, 3, 4⟩, 2⟩, [(0, ⟨⟨1, 2, 3, 4⟩, 2⟩)], false) ∧
    cacheResolve (fun i : InputIdentities => i.themeId)
        [(0, ⟨⟨1, 2, 3, 4⟩, 2⟩)] 0 ⟨1, 9, 3, 4⟩ =
      (⟨⟨1, 9, 3, 4⟩, 9⟩, [(0, ⟨⟨1, 9, 3, 4⟩, 9⟩)], true) := by
  have h := resolutionCache_identity (fun i : InputIdentities => i.themeId) [] 0 ⟨1, 2, 3, 4⟩
    ⟨⟨1, 2, 3, 4⟩, 2⟩ [(0, ⟨⟨1, 2, 3, 4⟩, 2⟩)] true (by decide)
  refine ⟨h.1, ?_⟩
  have h2 := h.2.2 ⟨1, 9, 3, 4⟩ (by decide)
  simpa [removeKey] using h2

/-! # Missing theme context (C9)

`renderComponent` (src/packages/react/src/utils/renderComponent.tsx) calls
`logProviderMissingWarning()` when the context is empty and `useStyles`
(src/unnamed/part_003) falls back to `emptyTheme`; the warning handler's
implementation (`providerMissingHandler`) is not under the sources and is
modelled from the spec: a single non-fatal warning emitted once. -/

/-- State of the warning handler: whether the warning was already emitted,
and how many warnings have been printed in total. -/
structure WarnState where
  emitted : Bool
  count : Nat
deriving DecidableEq, Repr

/-- `logProviderMissingWarning`: prints the provider-missing warning only the
first time it is called. -/
def logProviderMissingWarning (s : WarnState) : WarnState :=
  if s.emitted then s else ⟨true, s.count + 1⟩

/-- The context a provider would supply. -/
structure ProviderContext where
  theme : Theme
deriving DecidableEq, Repr

/-- One themed resolution: with no active context the empty theme is used and
the warning handler is invoked; with a context its theme is used unchanged.
The returned theme is always defined — a missing context is never fatal. -/
def resolveWithContext (context : Option ProviderContext) (s : WarnState) :
    Theme × WarnState :=
  match context with
  | none => (emptyTheme, logProviderMissingWarning s)
  | some c => (c.theme, s)

/-- `n` successive resolutions without any provider context, threading the
warning state. -/
def renderMany (s : WarnState) : Nat → WarnState
  | 0 => s
  | Nat.succ n => renderMany (resolveWithContext none s).2 n

theorem renderMany_emitted (n : Nat) : ∀ s : WarnState, s.emitted = true → renderMany s n = s := by
  induction n with
  | zero => intro s _; rfl
  | succ n ih =>
    intro s hs
    simp [renderMany, resolveWithContext, logProviderMissingWarning, hs, ih s hs]

/-- Claim C9: A resolution with no active theme context is never fatal: it
completes by falling back to the empty theme, and the non-fatal warning is
emitted exactly once over any positive number of such resolutions — never
once per resolution. -/
theorem missingThemeContext_warns_once (s : WarnState) (n : Nat) :
    (resolveWithContext none s).1 = emptyTheme ∧
    (∀ c : ProviderContext, (resolveWithContext (some c) s).1 = c.theme) ∧
    (s.emitted = false → 1 ≤ n → renderMany s n = ⟨true, s.count + 1⟩) := by
  refine ⟨rfl, fun c => rfl, ?_⟩
  intro hs hn
  cases n with
  | zero => omega
  | succ n =>
    have h1 : (resolveWithContext none s).2 = ⟨true, s.count + 1⟩ := by
      simp [resolveWithContext, logProviderMissingWarning, hs]
    simp only [renderMany, h1]
    exact renderMany_emitted n _ rfl

/-- Closed instance of `missingThemeContext_warns_once`: three consecutive
providerless resolutions from a fresh state emit exactly one warning. -/
theorem missingThemeContext_warns_once_witness :
    (resolveWithContext none ⟨false, 0⟩).1 = emptyTheme ∧
    renderMany ⟨false, 0⟩ 3 = ⟨true, 1⟩ :=
  ⟨(missingThemeContext_warns_once ⟨false, 0⟩ 3).1,
    (missingThemeContext_warns_once ⟨false, 0⟩ 3).2.2 (by decide) (by decide)⟩

end FluentTheming
